import Mathlib

/-!
Shallow embedding of `tower-default-headers` (src/src/lib.rs).

The crate is a tower middleware: `DefaultHeadersLayer` holds a `HeaderMap` of
default headers; `DefaultHeaders<S>` wraps an inner service `S`; its
`ResponseFuture` polls the inner future and, on a successful response, inserts
each default header whose name the response does not already contain.

Embedding choices:
* `HeaderMap` (from the external `http` crate) is modelled as an ordered
  association list of (name, value) pairs, supporting duplicate names.  Header
  names in `http::HeaderName` are canonicalised to ASCII lowercase at
  construction time, so case-insensitive matching is plain equality of the
  stored names; `lowerAscii` models that canonicalisation and `HeaderMap.ofList`
  models building a map from raw literals.  `http::HeaderMap::iter` yields
  values of one name grouped in insertion order; the lists we quantify over are
  a superset of those reachable orders.
* Futures are modelled one poll at a time: a future is a function from a poll
  context to a `Poll` outcome, and `ResponseFuture.poll` transforms the inner
  future's outcome exactly as the Rust `poll` body does.
* An inner tower service is a pair of a `poll_ready` function and a `call`
  function producing a future.
-/

namespace TowerDefaultHeaders

/-- ASCII-lowercase canonicalisation applied by `http::HeaderName` at
construction time; header-name matching is case-insensitive because both sides
have been mapped through this. -/
def lowerAscii (s : String) : String :=
  String.map Char.toLower s

/-- Model of `http::HeaderMap`: an ordered multimap from header name to header
value, in iteration order, allowing duplicate names.  Stored names are already
canonical (lowercase). -/
structure HeaderMap where
  entries : List (String × String)
deriving DecidableEq

/-- `HeaderMap::new()`: the empty header map. -/
def HeaderMap.empty : HeaderMap := ⟨[]⟩

/-- Build a header map from raw (name, value) literals, canonicalising the
names as `http::HeaderName` construction does. -/
def HeaderMap.ofList (l : List (String × String)) : HeaderMap :=
  ⟨l.map (fun p => (lowerAscii p.1, p.2))⟩

/-- `HeaderMap::contains_key`: does any entry have this name? -/
def HeaderMap.containsKey (m : HeaderMap) (name : String) : Bool :=
  m.entries.any (fun p => p.1 == name)

/-- `HeaderMap::get`: the first value associated with `name`, if any. -/
def HeaderMap.get (m : HeaderMap) (name : String) : Option String :=
  (m.entries.find? (fun p => p.1 == name)).map (fun p => p.2)

/-- `HeaderMap::get_all` (as a value list): every value associated with
`name`, in order. -/
def HeaderMap.getAll (m : HeaderMap) (name : String) : List String :=
  (m.entries.filter (fun p => p.1 == name)).map (fun p => p.2)

/-- Helper for `HeaderMap.insert` when the name is present: the first entry
with the name keeps its position and takes the new value, and every later
entry with the name is removed. -/
def replaceEntry : List (String × String) → String → String → List (String × String)
  | [], name, value => [(name, value)]
  | p :: rest, name, value =>
    if p.1 == name then (name, value) :: rest.filter (fun q => !(q.1 == name))
    else p :: replaceEntry rest name value

/-- `HeaderMap::insert`: if the name is present, replace its value(s) by the
single new value; otherwise push a new entry at the end. -/
def HeaderMap.insert (m : HeaderMap) (name value : String) : HeaderMap :=
  if m.containsKey name then ⟨replaceEntry m.entries name value⟩
  else ⟨m.entries ++ [(name, value)]⟩

/-- `HeaderMap::append`: always add another entry for the name. -/
def HeaderMap.append (m : HeaderMap) (name value : String) : HeaderMap :=
  ⟨m.entries ++ [(name, value)]⟩

/-- The header-merge loop of `ResponseFuture::poll` (src/src/lib.rs:68-72):

    for (name, value) in this.default_headers.iter() {
        if !headers.contains_key(name) {
            headers.insert(name, value.clone());
        }
    }
-/
def mergeHeaders (default_headers headers : HeaderMap) : HeaderMap :=
  default_headers.entries.foldl
    (fun hs p => if hs.containsKey p.1 then hs else hs.insert p.1 p.2)
    headers

/-- `std::task::Poll`. -/
inductive Poll (α : Type) where
  | pending
  | ready (value : α)
deriving DecidableEq

/-- An HTTP response: status, header map, body (the body type is opaque to the
middleware). -/
structure Response (B : Type) where
  status : Nat
  headers : HeaderMap
  body : B
deriving DecidableEq

/-- A future is modelled one poll at a time: a function from the poll context
to the poll outcome. -/
def Fut (Ctx E B : Type) : Type :=
  Ctx → Poll (Except E (Response B))

/-- `ResponseFuture<F>`: the pending wrapper response, pairing the captured
default-header snapshot with the inner future. -/
structure ResponseFuture (F : Type) where
  default_headers : HeaderMap
  future : F

/-- `ResponseFuture::poll` (src/src/lib.rs:63-75): poll the inner future;
propagate `Pending` (the `ready!` macro) and `Err` (the `?` operator)
unchanged; on `Ok(res)` merge the default headers into `res` and return it. -/
def ResponseFuture.poll {Ctx E B : Type}
    (rf : ResponseFuture (Fut Ctx E B)) (cx : Ctx) : Poll (Except E (Response B)) :=
  match rf.future cx with
  | .pending => .pending
  | .ready (.error e) => .ready (.error e)
  | .ready (.ok res) =>
    .ready (.ok { res with headers := mergeHeaders rf.default_headers res.headers })

/-- An inner tower service: a readiness check and a call operation producing a
future.  The request type `Req` is opaque to the middleware. -/
structure Svc (Ctx Req E B : Type) where
  poll_ready : Ctx → Poll (Except E Unit)
  call : Req → Fut Ctx E B

/-- `DefaultHeaders<S>`: the wrapper service holding the default headers and
the inner service. -/
structure DefaultHeaders (Ctx Req E B : Type) where
  default_headers : HeaderMap
  inner : Svc Ctx Req E B

/-- `DefaultHeaders::poll_ready` (src/src/lib.rs:93-95): delegate to the inner
service. -/
def DefaultHeaders.poll_ready {Ctx Req E B : Type}
    (s : DefaultHeaders Ctx Req E B) (cx : Ctx) : Poll (Except E Unit) :=
  s.inner.poll_ready cx

/-- `DefaultHeaders::call` (src/src/lib.rs:97-103): immediately call the inner
service on the request, and pair the resulting future with a clone of the
default headers. -/
def DefaultHeaders.call {Ctx Req E B : Type}
    (s : DefaultHeaders Ctx Req E B) (req : Req) : ResponseFuture (Fut Ctx E B) :=
  { default_headers := s.default_headers, future := s.inner.call req }

/-- The wrapper viewed as a service itself (the `Service` impl for
`DefaultHeaders<S>`): readiness delegates, and handling a request means
dispatching `call` and polling the returned `ResponseFuture` — this is how the
surrounding framework drives the middleware. -/
def DefaultHeaders.toSvc {Ctx Req E B : Type}
    (s : DefaultHeaders Ctx Req E B) : Svc Ctx Req E B :=
  { poll_ready := s.poll_ready
    call := fun req => (s.call req).poll }

/-- `DefaultHeadersLayer`: the configuration holder. -/
structure DefaultHeadersLayer where
  default_headers : HeaderMap

/-- `DefaultHeadersLayer::new` (src/src/lib.rs:124-126): store the given
header map verbatim. -/
def DefaultHeadersLayer.new (default_headers : HeaderMap) : DefaultHeadersLayer :=
  { default_headers }

/-- `Layer::layer` for `DefaultHeadersLayer` (src/src/lib.rs:128-138): build a
`DefaultHeaders` service from a clone of the stored defaults and the given
inner service. -/
def DefaultHeadersLayer.layer {Ctx Req E B : Type}
    (l : DefaultHeadersLayer) (inner : Svc Ctx Req E B) : DefaultHeaders Ctx Req E B :=
  { default_headers := l.default_headers, inner }

/-- Keep only the first entry for each name (later duplicates dropped);
`seen` accumulates the names already kept.  Used to state the exact effect of
the merge loop. -/
def dedupFirst : List (String × String) → List String → List (String × String)
  | [], _ => []
  | (n, v) :: rest, seen =>
    if n ∈ seen then dedupFirst rest seen
    else (n, v) :: dedupFirst rest (n :: seen)

/-- The entries the merge loop appends to a response with headers `r` given
defaults `d`: the defaults whose name is absent from `r`, first value per
name only, in `d`'s order. -/
def addedDefaults (d r : HeaderMap) : List (String × String) :=
  dedupFirst (d.entries.filter (fun p => !(r.containsKey p.1))) []

/-! ### Concrete fixtures (mirroring the crate's test suite) -/

/-- The test response: status 200, no headers, body "hello, world!". -/
def okResponse : Response String :=
  { status := 200, headers := HeaderMap.empty, body := "hello, world!" }

/-- The test response that already sets `x-frame-options: sameorigin`. -/
def presetResponse : Response String :=
  { status := 200
    headers := ⟨[("x-frame-options", "sameorigin")]⟩
    body := "hello, world!" }

/-- An always-ready inner service returning `okResponse`. -/
def okSvc : Svc Unit Unit String String :=
  { poll_ready := fun _ => Poll.ready (Except.ok ())
    call := fun _ _ => Poll.ready (Except.ok okResponse) }

/-- An always-ready inner service returning `presetResponse`. -/
def presetSvc : Svc Unit Unit String String :=
  { poll_ready := fun _ => Poll.ready (Except.ok ())
    call := fun _ _ => Poll.ready (Except.ok presetResponse) }

/-- An inner service that fails with the error string "boom". -/
def errSvc : Svc Unit Unit String String :=
  { poll_ready := fun _ => Poll.ready (Except.ok ())
    call := fun _ _ => Poll.ready (Except.error "boom") }

/-- `okSvc` wrapped with default `x-frame-options: deny`. -/
def denyWrapper : DefaultHeaders Unit Unit String String :=
  { default_headers := ⟨[("x-frame-options", "deny")]⟩, inner := okSvc }

/-- `presetSvc` wrapped with default `x-frame-options: deny`. -/
def presetWrapper : DefaultHeaders Unit Unit String String :=
  { default_headers := ⟨[("x-frame-options", "deny")]⟩, inner := presetSvc }

/-- `errSvc` wrapped with default `x-frame-options: deny`. -/
def errWrapper : DefaultHeaders Unit Unit String String :=
  { default_headers := ⟨[("x-frame-options", "deny")]⟩, inner := errSvc }

/-- `okSvc` wrapped with duplicate defaults for the same name. -/
def dupWrapper : DefaultHeaders Unit Unit String String :=
  { default_headers := ⟨[("x-frame-options", "deny"), ("x-frame-options", "sameorigin")]⟩
    inner := okSvc }

/-! ### Basic `HeaderMap` lemmas -/

lemma HeaderMap.insert_of_not_containsKey (m : HeaderMap) (n v : String)
    (h : m.containsKey n = false) : m.insert n v = ⟨m.entries ++ [(n, v)]⟩ := by
  simp [HeaderMap.insert, h]

lemma containsKey_mk_append (es : List (String × String)) (k v n : String) :
    (HeaderMap.mk (es ++ [(k, v)])).containsKey n
      = ((HeaderMap.mk es).containsKey n || (k == n)) := by
  simp [HeaderMap.containsKey]

lemma getAll_mk_append (es : List (String × String)) (k v n : String) :
    (HeaderMap.mk (es ++ [(k, v)])).getAll n
      = (HeaderMap.mk es).getAll n ++ (if k == n then [v] else []) := by
  by_cases h : (k == n) <;> simp [HeaderMap.getAll, List.filter_append, h]

lemma getAll_eq_nil_of_not_containsKey (m : HeaderMap) (n : String)
    (h : m.containsKey n = false) : m.getAll n = [] := by
  rw [HeaderMap.containsKey, List.any_eq_false] at h
  simp only [HeaderMap.getAll, List.map_eq_nil_iff, List.filter_eq_nil_iff]
  exact h

lemma get_eq_head?_getAll (m : HeaderMap) (n : String) :
    m.get n = (m.getAll n).head? := by
  obtain ⟨es⟩ := m
  simp only [HeaderMap.get, HeaderMap.getAll]
  induction es with
  | nil => rfl
  | cons p rest ih =>
    cases h : (p.1 == n)
    · rw [show List.find? (fun q => q.1 == n) (p :: rest)
            = List.find? (fun q => q.1 == n) rest by simp [List.find?, h],
        List.filter_cons_of_neg (by simp [h])]
      exact ih
    · rw [show List.find? (fun q => q.1 == n) (p :: rest) = some p by simp [List.find?, h],
        show List.filter (fun q => q.1 == n) (p :: rest)
          = p :: List.filter (fun q => q.1 == n) rest by simp [List.filter_cons, h]]
      rfl

/-! ### Structure of the merge loop -/

lemma mergeHeaders_nil (r : HeaderMap) : mergeHeaders ⟨[]⟩ r = r := rfl

lemma mergeHeaders_cons (k v : String) (rest : List (String × String)) (r : HeaderMap) :
    mergeHeaders ⟨(k, v) :: rest⟩ r
      = if r.containsKey k then mergeHeaders ⟨rest⟩ r
        else mergeHeaders ⟨rest⟩ ⟨r.entries ++ [(k, v)]⟩ := by
  cases hc : r.containsKey k <;>
    simp [mergeHeaders, hc, HeaderMap.insert]

/-- Core of non-override: if the response already has an entry for `n`, the
merge leaves every value for `n` untouched. -/
lemma getAll_mergeHeaders_of_containsKey (d : HeaderMap) :
    ∀ (r : HeaderMap) (n : String), r.containsKey n = true →
      (mergeHeaders d r).getAll n = r.getAll n := by
  obtain ⟨es⟩ := d
  induction es with
  | nil => intro r n _; rfl
  | cons p rest ih =>
    intro r n h
    obtain ⟨k, v⟩ := p
    rw [mergeHeaders_cons]
    cases hc : r.containsKey k
    · have hkn : (k == n) = false := by
        by_contra hx
        rw [Bool.not_eq_false] at hx
        rw [← eq_of_beq hx, hc] at h
        simp at h
      have hc' : (HeaderMap.mk (r.entries ++ [(k, v)])).containsKey n = true := by
        simp only [HeaderMap.containsKey] at h ⊢
        simp [h]
      rw [if_neg (by simp [hc]), ih _ n hc', getAll_mk_append]
      simp [hkn]
    · rw [if_pos (by simp [hc])]
      exact ih r n h


/-- Core of merge-if-absent: if the response lacks `n` and the first default
value listed for `n` is `v`, after the merge the response's values for `n` are
exactly `[v]` — the first default wins and every later duplicate is skipped. -/
lemma getAll_mergeHeaders_of_absent (d : HeaderMap) :
    ∀ (r : HeaderMap) (n v : String), d.get n = some v → r.containsKey n = false →
      (mergeHeaders d r).getAll n = [v] := by
  obtain ⟨es⟩ := d
  induction es with
  | nil => intro r n v hget _; simp [HeaderMap.get, List.find?] at hget
  | cons p rest ih =>
    intro r n v hget hr
    obtain ⟨k, w⟩ := p
    rw [mergeHeaders_cons]
    cases hkn : (k == n)
    · have hget' : (HeaderMap.mk rest).get n = some v := by
        simp only [HeaderMap.get] at hget ⊢
        rw [show List.find? (fun q => q.1 == n) ((k, w) :: rest)
              = List.find? (fun q => q.1 == n) rest by simp [List.find?, hkn]] at hget
        exact hget
      cases hc : r.containsKey k
      · have hr' : (HeaderMap.mk (r.entries ++ [(k, w)])).containsKey n = false := by
          simp only [HeaderMap.containsKey] at hr ⊢
          simp [hr, hkn]
        rw [if_neg (by simp [hc])]
        exact ih _ n v hget' hr'
      · rw [if_pos (by simp [hc])]
        exact ih r n v hget' hr
    · have hkeq : k = n := eq_of_beq hkn
      have hc : r.containsKey k = false := by rw [hkeq]; exact hr
      rw [if_neg (by simp [hc])]
      have hv : w = v := by
        simp only [HeaderMap.get] at hget
        rw [show List.find? (fun q => q.1 == n) ((k, w) :: rest)
              = some (k, w) by simp [List.find?, hkn]] at hget
        simpa using hget
      have hc' : (HeaderMap.mk (r.entries ++ [(k, w)])).containsKey n = true := by
        simp only [HeaderMap.containsKey]
        simp [hkn]
      rw [getAll_mergeHeaders_of_containsKey _ _ _ hc', getAll_mk_append]
      simp [hkn, getAll_eq_nil_of_not_containsKey r n hr, hv]

/-- The merge can only grow the set of names present. -/
lemma containsKey_mergeHeaders_of_containsKey (d : HeaderMap) :
    ∀ (r : HeaderMap) (n : String), r.containsKey n = true →
      (mergeHeaders d r).containsKey n = true := by
  obtain ⟨es⟩ := d
  induction es with
  | nil => intro r n h; exact h
  | cons p rest ih =>
    intro r n h
    obtain ⟨k, v⟩ := p
    rw [mergeHeaders_cons]
    cases hc : r.containsKey k
    · rw [if_neg (by simp [hc])]
      refine ih _ n ?_
      simp only [HeaderMap.containsKey] at h ⊢
      simp [h]
    · rw [if_pos (by simp [hc])]
      exact ih r n h

/-- After the merge, every name listed among the defaults is present. -/
lemma containsKey_mergeHeaders_of_mem (d : HeaderMap) :
    ∀ (r : HeaderMap) (n v : String), (n, v) ∈ d.entries →
      (mergeHeaders d r).containsKey n = true := by
  obtain ⟨es⟩ := d
  induction es with
  | nil => intro r n v h; simp at h
  | cons p rest ih =>
    intro r n v h
    obtain ⟨k, w⟩ := p
    rw [mergeHeaders_cons]
    rcases List.mem_cons.mp h with heq | hmem
    · have hn : n = k := congrArg Prod.fst heq
      cases hc : r.containsKey k
      · rw [if_neg (by simp [hc])]
        refine containsKey_mergeHeaders_of_containsKey _ _ n ?_
        simp only [HeaderMap.containsKey]
        simp [hn]
      · rw [if_pos (by simp [hc])]
        refine containsKey_mergeHeaders_of_containsKey _ r n ?_
        rw [hn]
        exact hc
    · cases hc : r.containsKey k
      · rw [if_neg (by simp [hc])]
        exact ih _ n v hmem
      · rw [if_pos (by simp [hc])]
        exact ih r n v hmem

/-- When every default name is already present, the merge is a no-op. -/
lemma mergeHeaders_eq_self_of_forall_containsKey (d : HeaderMap) :
    ∀ (r : HeaderMap), (∀ p ∈ d.entries, r.containsKey p.1 = true) →
      mergeHeaders d r = r := by
  obtain ⟨es⟩ := d
  induction es with
  | nil => intro r _; rfl
  | cons p rest ih =>
    intro r h
    obtain ⟨k, v⟩ := p
    rw [mergeHeaders_cons, if_pos (by simp [h (k, v) (List.mem_cons_self _ _)])]
    exact ih r (fun q hq => h q (List.mem_cons_of_mem _ hq))

/-- Merging the same defaults twice is the same as merging them once. -/
lemma mergeHeaders_idem (d r : HeaderMap) :
    mergeHeaders d (mergeHeaders d r) = mergeHeaders d r :=
  mergeHeaders_eq_self_of_forall_containsKey d _
    (fun p hp => containsKey_mergeHeaders_of_mem d r p.1 p.2 hp)


/-- `dedupFirst` only looks at which names are in `seen`, not their order. -/
lemma dedupFirst_congr :
    ∀ (l : List (String × String)) (s₁ s₂ : List String),
      (∀ x : String, x ∈ s₁ ↔ x ∈ s₂) → dedupFirst l s₁ = dedupFirst l s₂ := by
  intro l
  induction l with
  | nil => intro s₁ s₂ _; rfl
  | cons p rest ih =>
    intro s₁ s₂ hs
    obtain ⟨n, v⟩ := p
    simp only [dedupFirst]
    by_cases hn : n ∈ s₁
    · rw [if_pos hn, if_pos ((hs n).mp hn)]
      exact ih s₁ s₂ hs
    · rw [if_neg hn, if_neg (fun hx => hn ((hs n).mpr hx))]
      exact congrArg _ (ih (n :: s₁) (n :: s₂) (by intro x; simp [List.mem_cons, hs x]))

/-- Marking a name as seen is the same as filtering its entries away. -/
lemma dedupFirst_filter_ne :
    ∀ (l : List (String × String)) (k : String) (seen : List String),
      dedupFirst (l.filter (fun p => !(k == p.1))) seen = dedupFirst l (k :: seen) := by
  intro l
  induction l with
  | nil => intro k seen; rfl
  | cons p rest ih =>
    intro k seen
    obtain ⟨n, v⟩ := p
    cases hkn : (k == n)
    · rw [show List.filter (fun p => !(k == p.1)) ((n, v) :: rest)
            = (n, v) :: List.filter (fun p => !(k == p.1)) rest by
          simp [List.filter_cons, hkn]]
      have hnk : ¬ n = k := fun h => by simp [h] at hkn
      simp only [dedupFirst]
      by_cases hn : n ∈ seen
      · rw [if_pos hn, if_pos (by simp [List.mem_cons, hn])]
        exact ih k seen
      · rw [if_neg hn, if_neg (by simp [List.mem_cons, hnk, hn])]
        refine congrArg _ ?_
        rw [ih k (n :: seen)]
        exact dedupFirst_congr rest (k :: n :: seen) (n :: k :: seen)
          (by intro x; simp [List.mem_cons]; tauto)
    · have hkeq : k = n := eq_of_beq hkn
      rw [show List.filter (fun p => !(k == p.1)) ((n, v) :: rest)
            = List.filter (fun p => !(k == p.1)) rest by simp [List.filter_cons, hkn]]
      simp only [dedupFirst]
      rw [if_pos (by simp [hkeq])]
      exact ih k seen

/-- Exact effect of the merge loop on the entry list: the response's entries,
in their original order, followed by exactly the defaults that get added. -/
lemma mergeHeaders_entries (d : HeaderMap) :
    ∀ r : HeaderMap, (mergeHeaders d r).entries = r.entries ++ addedDefaults d r := by
  obtain ⟨es⟩ := d
  induction es with
  | nil => intro r; simp [mergeHeaders_nil, addedDefaults, dedupFirst]
  | cons p rest ih =>
    intro r
    obtain ⟨k, w⟩ := p
    rw [mergeHeaders_cons]
    cases hc : r.containsKey k
    · rw [if_neg (by simp [hc]), ih ⟨r.entries ++ [(k, w)]⟩]
      have h1 : addedDefaults ⟨(k, w) :: rest⟩ r
          = (k, w) :: dedupFirst (rest.filter (fun p => !(r.containsKey p.1))) [k] := by
        simp only [addedDefaults]
        rw [show List.filter (fun p => !(r.containsKey p.1)) ((k, w) :: rest)
              = (k, w) :: List.filter (fun p => !(r.containsKey p.1)) rest by
            simp [List.filter_cons, hc]]
        simp [dedupFirst]
      have h2 : addedDefaults ⟨rest⟩ ⟨r.entries ++ [(k, w)]⟩
          = dedupFirst (rest.filter (fun p => !(r.containsKey p.1))) [k] := by
        simp only [addedDefaults]
        rw [show List.filter
                (fun p => !((HeaderMap.mk (r.entries ++ [(k, w)])).containsKey p.1)) rest
              = List.filter (fun p => !(k == p.1))
                  (List.filter (fun p => !(r.containsKey p.1)) rest) by
            rw [List.filter_filter]
            congr 1
            funext q
            simp [HeaderMap.containsKey, Bool.and_comm]]
        exact dedupFirst_filter_ne _ k []
      rw [h1, h2]
      simp
    · rw [if_pos (by simp [hc]), ih r]
      refine congrArg _ ?_
      simp only [addedDefaults]
      refine congrArg (fun l => dedupFirst l []) ?_
      simp [List.filter_cons, hc]


/-! ### Plumbing through `ResponseFuture::poll` -/

/-- If the inner future resolves to `Ok r`, polling the wrapper's
`ResponseFuture` yields `Ok` of `r` with the defaults merged in. -/
lemma call_poll_ok {Ctx Req E B : Type} (s : DefaultHeaders Ctx Req E B)
    (req : Req) (cx : Ctx) (r : Response B)
    (h : s.inner.call req cx = Poll.ready (Except.ok r)) :
    (s.call req).poll cx
      = Poll.ready (Except.ok
          { r with headers := mergeHeaders s.default_headers r.headers }) := by
  simp [DefaultHeaders.call, ResponseFuture.poll, h]

/-! ### The claims -/

/-- C1 (merge-if-absent): when the inner stage succeeds with response `r` and
the defaults list value `v` for a name `n` that `r`'s headers lack, the final
response contains `n` with the corresponding default value `v`. -/
theorem merge_if_absent {Ctx Req E B : Type}
    (s : DefaultHeaders Ctx Req E B) (req : Req) (cx : Ctx) (r : Response B)
    (n v : String)
    (hok : s.inner.call req cx = Poll.ready (Except.ok r))
    (hd : s.default_headers.get n = some v)
    (habs : r.headers.containsKey n = false) :
    ∃ r' : Response B,
      (s.call req).poll cx = Poll.ready (Except.ok r')
        ∧ r'.headers.get n = some v := by
  refine ⟨_, call_poll_ok s req cx r hok, ?_⟩
  show (mergeHeaders s.default_headers r.headers).get n = some v
  rw [get_eq_head?_getAll, getAll_mergeHeaders_of_absent _ _ _ _ hd habs]
  rfl

theorem merge_if_absent_witness :
    ∃ r' : Response String,
      (denyWrapper.call ()).poll () = Poll.ready (Except.ok r')
        ∧ r'.headers.get "x-frame-options" = some "deny" :=
  merge_if_absent denyWrapper () () okResponse "x-frame-options" "deny" rfl rfl rfl

/-- C2 (non-override): when the inner stage succeeds with response `r` and a
name `n` is already present in `r`'s headers, the final response keeps exactly
`r`'s original value list for `n`: the default is never inserted, replaced or
removed there. -/
theorem non_override {Ctx Req E B : Type}
    (s : DefaultHeaders Ctx Req E B) (req : Req) (cx : Ctx) (r : Response B)
    (n : String)
    (hok : s.inner.call req cx = Poll.ready (Except.ok r))
    (hpres : r.headers.containsKey n = true) :
    ∃ r' : Response B,
      (s.call req).poll cx = Poll.ready (Except.ok r')
        ∧ r'.headers.getAll n = r.headers.getAll n := by
  refine ⟨_, call_poll_ok s req cx r hok, ?_⟩
  exact getAll_mergeHeaders_of_containsKey _ _ _ hpres

theorem non_override_witness :
    ∃ r' : Response String,
      (presetWrapper.call ()).poll () = Poll.ready (Except.ok r')
        ∧ r'.headers.getAll "x-frame-options"
            = presetResponse.headers.getAll "x-frame-options" :=
  non_override presetWrapper () () presetResponse "x-frame-options" rfl rfl

/-- C3 (transparency on error): when the inner future resolves to `Err e`, the
wrapper's result is exactly `Err e` — the same error value, unwrapped, and the
success branch (the header merge) is never reached. -/
theorem error_transparency {Ctx Req E B : Type}
    (s : DefaultHeaders Ctx Req E B) (req : Req) (cx : Ctx) (e : E)
    (herr : s.inner.call req cx = Poll.ready (Except.error e)) :
    (s.call req).poll cx = Poll.ready (Except.error e) := by
  simp [DefaultHeaders.call, ResponseFuture.poll, herr]

theorem error_transparency_witness :
    (errWrapper.call ()).poll () = Poll.ready (Except.error "boom") :=
  error_transparency errWrapper () () "boom" rfl

/-- C4 (order sensitivity for duplicate default names): if the defaults list
two or more entries for a name `n` (first-listed value `v`) and the response
initially lacks `n`, the final response carries exactly the single value `v`
for `n`: the first default establishes presence and every later duplicate is
skipped. -/
theorem duplicate_defaults_first_wins {Ctx Req E B : Type}
    (s : DefaultHeaders Ctx Req E B) (req : Req) (cx : Ctx) (r : Response B)
    (n v : String)
    (hok : s.inner.call req cx = Poll.ready (Except.ok r))
    (hd : s.default_headers.get n = some v)
    (hdup : 2 ≤ (s.default_headers.getAll n).length)
    (habs : r.headers.containsKey n = false) :
    ∃ r' : Response B,
      (s.call req).poll cx = Poll.ready (Except.ok r')
        ∧ r'.headers.getAll n = [v] := by
  refine ⟨_, call_poll_ok s req cx r hok, ?_⟩
  exact getAll_mergeHeaders_of_absent _ _ _ _ hd habs

theorem duplicate_defaults_first_wins_witness :
    ∃ r' : Response String,
      (dupWrapper.call ()).poll () = Poll.ready (Except.ok r')
        ∧ r'.headers.getAll "x-frame-options" = ["deny"] :=
  duplicate_defaults_first_wins dupWrapper () () okResponse "x-frame-options" "deny"
    rfl rfl (by decide) rfl

/-- C5 (exact effect of the merge): on success the final response has the same
status and body, and its header entries are exactly the original entries, in
order, followed by one entry per distinct absent default name carrying the
first default value listed for that name — and nothing else. -/
theorem merge_exact_effect {Ctx Req E B : Type}
    (s : DefaultHeaders Ctx Req E B) (req : Req) (cx : Ctx) (r : Response B)
    (hok : s.inner.call req cx = Poll.ready (Except.ok r)) :
    ∃ r' : Response B,
      (s.call req).poll cx = Poll.ready (Except.ok r')
        ∧ r'.status = r.status ∧ r'.body = r.body
        ∧ r'.headers.entries
            = r.headers.entries ++ addedDefaults s.default_headers r.headers :=
  ⟨_, call_poll_ok s req cx r hok, rfl, rfl,
    mergeHeaders_entries s.default_headers r.headers⟩

theorem merge_exact_effect_witness :
    ∃ r' : Response String,
      (dupWrapper.call ()).poll () = Poll.ready (Except.ok r')
        ∧ r'.status = okResponse.status ∧ r'.body = okResponse.body
        ∧ r'.headers.entries
            = okResponse.headers.entries
              ++ addedDefaults dupWrapper.default_headers okResponse.headers :=
  merge_exact_effect dupWrapper () () okResponse rfl

/-- C6 (idempotence under identical defaults): wrapping the wrapper again with
the same default set yields, for every request and poll context, exactly the
same outcome as the single wrapper — the second pass finds every default name
already present. -/
theorem wrap_twice_idempotent {Ctx Req E B : Type}
    (d : HeaderMap) (s : Svc Ctx Req E B) (req : Req) (cx : Ctx) :
    (DefaultHeaders.mk d (DefaultHeaders.mk d s).toSvc).toSvc.call req cx
      = (DefaultHeaders.mk d s).toSvc.call req cx := by
  simp only [DefaultHeaders.toSvc, DefaultHeaders.call, ResponseFuture.poll]
  cases s.call req cx with
  | pending => rfl
  | ready x =>
    cases x with
    | error e => rfl
    | ok r => simp [mergeHeaders_idem]

/-- C7 (empty defaults): with an empty default set the wrapper passes the
inner outcome through unchanged — in particular a successful response keeps
its header collection completely unmodified. -/
theorem empty_defaults_identity {Ctx Req E B : Type}
    (s : Svc Ctx Req E B) (req : Req) (cx : Ctx) :
    ((DefaultHeaders.mk HeaderMap.empty s).call req).poll cx = s.call req cx := by
  simp only [DefaultHeaders.call, ResponseFuture.poll]
  cases s.call req cx with
  | pending => rfl
  | ready x =>
    cases x with
    | error e => rfl
    | ok r => rfl

/-- C8 (frame): the wrapper forwards the request itself to the inner service
(its pending future is exactly the inner call on the same request), and on
success it changes only the header collection: status and body are the inner
stage's. -/
theorem frame_only_headers {Ctx Req E B : Type}
    (s : DefaultHeaders Ctx Req E B) (req : Req) (cx : Ctx) (r : Response B)
    (hok : s.inner.call req cx = Poll.ready (Except.ok r)) :
    (s.call req).future = s.inner.call req
      ∧ ∃ r' : Response B,
          (s.call req).poll cx = Poll.ready (Except.ok r')
            ∧ r'.status = r.status ∧ r'.body = r.body :=
  ⟨rfl, _, call_poll_ok s req cx r hok, rfl, rfl⟩

theorem frame_only_headers_witness :
    (denyWrapper.call ()).future = denyWrapper.inner.call ()
      ∧ ∃ r' : Response String,
          (denyWrapper.call ()).poll () = Poll.ready (Except.ok r')
            ∧ r'.status = okResponse.status ∧ r'.body = okResponse.body :=
  frame_only_headers denyWrapper () () okResponse rfl

/-- C9 (attach is pure): `layer` builds a wrapper whose default set is the
holder's set and whose inner stage is the given one; it can be applied to two
different stages and the holder's own set stays what `new` stored. -/
theorem layer_attach_pure {Ctx Req E B : Type}
    (d : HeaderMap) (s₁ s₂ : Svc Ctx Req E B) :
    ((DefaultHeadersLayer.new d).layer s₁).default_headers = d
      ∧ ((DefaultHeadersLayer.new d).layer s₁).inner = s₁
      ∧ ((DefaultHeadersLayer.new d).layer s₂).default_headers = d
      ∧ ((DefaultHeadersLayer.new d).layer s₂).inner = s₂
      ∧ (DefaultHeadersLayer.new d).default_headers = d :=
  ⟨rfl, rfl, rfl, rfl, rfl⟩

/-- C10 (readiness delegation): the wrapper's readiness check is exactly the
inner service's readiness result, for every context. -/
theorem poll_ready_delegation {Ctx Req E B : Type}
    (s : DefaultHeaders Ctx Req E B) (cx : Ctx) :
    s.poll_ready cx = s.inner.poll_ready cx := rfl

end TowerDefaultHeaders
